import Mathlib

/-!
Verification development for the Monkey Island bitmap font editor
(`monkey_island_font_editor.py`).  The Python class `PixelEditorCanvas`
holds an indexed-color pixel buffer (a Qt `QImage` in `Format_Indexed8`),
a stored palette, a rectangular selection, a clipboard, a paste session
and snapshot-based undo/redo stacks.  Every definition below is a direct
shallow embedding of the corresponding Python method; UI-only concerns
(painting, Qt signals, scrolling, window layout) are omitted, and where a
signal emission is the only caller-visible outcome of a method it is
modelled as an explicit return value.
-/

/-- The pixel buffer: a `QImage` in `Format_Indexed8`, modelled as its
width, height and row-major list of palette indices.  `pixelIndex` and
`setPixel` mirror `QImage.pixelIndex(x, y)` and `QImage.setPixel(x, y, v)`;
the flat position of cell `(x, y)` is `y * width + x`. -/
structure Img where
  width : Nat
  height : Nat
  data : List Nat
deriving DecidableEq

def Img.pixelIndex (img : Img) (x y : Nat) : Nat :=
  img.data.getD (y * img.width + x) 0

def Img.setPixel (img : Img) (x y v : Nat) : Img :=
  { img with data := img.data.set (y * img.width + x) v }

/-- Well-formedness of a buffer: the data list has exactly
`width * height` entries, as a real `QImage` does. -/
def Img.WF (img : Img) : Prop :=
  img.data.length = img.width * img.height

/-- The flat indices visited by the editor's row-major double loops
`for y in range(height): for x in range(width)`, in visit order.  Each
iteration of those loops works on flat index `y * width + x` (the code's
running counter `idx` is incremented once per iteration, so it always
equals `y * width + x`). -/
def rowMajorIdx (w h : Nat) : List Nat :=
  (List.range h).flatMap fun y => (List.range w).map fun x => y * w + x

/-- Row-major capture of the current buffer, as done identically in
`save_state`, `undo`, `redo` (snapshot capture) and `save_image`
(`pixels` accumulation): `for y in range(height): for x in range(width):
pixel_data.append(self.image.pixelIndex(x, y))`. -/
def captureData (img : Img) : List Nat :=
  (List.range img.height).flatMap fun y =>
    (List.range img.width).map fun x => img.pixelIndex x y

/-- Row-major write of a source list into a base pixel list, as done by
the restore loops of `undo`/`redo` and the pixel-copy loop of
`load_image`: for each `y`, `x` in row-major order, if the running index
`idx = y * w + x` is below the source length, write `src[idx]` at cell
`(x, y)` (flat position `idx`). -/
def writeRowMajor (w h : Nat) (src base : List Nat) : List Nat :=
  (rowMajorIdx w h).foldl
    (fun d idx => if idx < src.length then d.set idx (src.getD idx 0) else d) base

/-- Character-height auto-detection from `load_image` (lines 81-94):
a fixed lookup on the bitmap height, else `height // 256`, with the
fallback value 8 substituted when that quotient is below 1. -/
def detectCharHeight (height : Nat) : Nat :=
  if height = 2048 then 8
  else if height = 2259 then 9
  else if height = 3390 then 15
  else if height = 3584 then 14
  else if height / 256 < 1 then 8 else height / 256

/-- PIL image mode: `P` (indexed color with an embedded palette) or any
other mode. -/
inductive PILMode where
  | P : PILMode
  | other : PILMode
deriving DecidableEq

/-- A source file as PIL presents it to `load_image`: its mode, the
embedded palette table (flat R,G,B byte list from `getpalette()`), its
size, and its raw pixel bytes (`tobytes()`). -/
structure PILImage where
  mode : PILMode
  palette : List Nat
  width : Nat
  height : Nat
  pixels : List Nat
deriving DecidableEq

/-- `pil_image.convert('P')` for a non-indexed source.  PIL computes some
indexed encoding; no theorem below relies on the pixel or palette values
this conversion produces, only on the fact that the result is mode `P`
with the same size. -/
def convertToP (pil : PILImage) : PILImage :=
  { pil with mode := PILMode.P }

/-- A history entry exactly as the Python code builds it:
`(pixel_data, description, width, height)`. -/
abbrev Snap := List Nat × String × Nat × Nat

/-- The snapshot tuple captured from the current image. -/
def capSnap (img : Img) (description : String) : Snap :=
  (captureData img, description, img.width, img.height)

/-- The editing state of `PixelEditorCanvas`: the fields of `__init__`
that the core operations read or write.  Zoom, grid, hover and the
transient mouse-drag booleans are omitted (display only). -/
structure Canvas where
  image : Option Img
  original_palette : Option (List Nat)
  char_height : Nat
  current_color_index : Nat
  selection_start : Option (Int × Int)
  selection_end : Option (Int × Int)
  clipboard_data : Option (List Nat)
  clipboard_size : Option (Nat × Nat)
  paste_mode : Bool
  paste_position : Option (Int × Int)
  undo_stack : List Snap
  redo_stack : List Snap
deriving DecidableEq

/-- The state built by `PixelEditorCanvas.__init__`. -/
def initCanvas : Canvas :=
  { image := none
    original_palette := none
    char_height := 8
    current_color_index := 1
    selection_start := none
    selection_end := none
    clipboard_data := none
    clipboard_size := none
    paste_mode := false
    paste_position := none
    undo_stack := []
    redo_stack := [] }

/-- `self.max_history = 50`. -/
def maxHistory : Nat := 50

/-- Python truthiness of an optional list field (`not self.clipboard_data`
is true both for `None` and for the empty list). -/
def optTruthy (o : Option (List Nat)) : Bool :=
  match o with
  | none => false
  | some l => decide (l ≠ [])

/-- `load_image`: captures the palette when the source is mode `P`
(before any conversion), converts a non-`P` source to `P`, auto-detects
the character height from the converted height, builds a fresh
width x height `Format_Indexed8` image (its pixel store modelled as
zero-initialised) and copies the PIL pixel bytes into it row-major, then
clears both history stacks.  Setting the `QImage` color table from the
stored palette (lines 99-105) only affects display and is omitted.
Note the method touches no other state: selection, clipboard and paste
fields keep their prior values. -/
def load_image (s : Canvas) (pil : PILImage) : Canvas :=
  let origPal := if pil.mode = PILMode.P then some pil.palette else s.original_palette
  let pil2 := if pil.mode = PILMode.P then pil else convertToP pil
  let img : Img :=
    { width := pil2.width
      height := pil2.height
      data := writeRowMajor pil2.width pil2.height pil2.pixels
                (List.replicate (pil2.width * pil2.height) 0) }
  { s with
    image := some img
    original_palette := origPal
    char_height := detectCharHeight pil2.height
    undo_stack := []
    redo_stack := [] }

/-- What `save_image` writes to disk: a mode-`P` BMP with a palette table
(`putpalette`), row-major pixel indices (`putdata`), and the image size. -/
structure SavedBMP where
  palette : List Nat
  pixels : List Nat
  width : Nat
  height : Nat
deriving DecidableEq

/-- `save_image`: fails (returns `False`) when no image is loaded or the
stored palette is missing or empty (Python truthiness of
`self.original_palette`); otherwise writes a PIL `P`-mode image carrying
exactly the stored palette and the captured pixel indices. -/
def save_image (s : Canvas) : Option SavedBMP :=
  match s.image, s.original_palette with
  | some img, some pal =>
    if pal = [] then none
    else some { palette := pal
                pixels := captureData img
                width := img.width
                height := img.height }
  | _, _ => none

/-- `draw_pixel`: the method receives a mouse position and divides it by
`zoom_level` to obtain the cell coordinates; we model it on the cell
coordinates `(x, y)` directly.  When `(x, y)` lies inside the buffer it
writes `current_color_index` there and emits the `pixelChanged` signal
(returned here as the `Option` payload); otherwise it does nothing: the
Python method has no error path and always returns `None`, so the only
caller-visible outcomes are the buffer and the emitted signal. -/
def draw_pixel (s : Canvas) (x y : Int) : Canvas × Option (Int × Int × Nat) :=
  match s.image with
  | none => (s, none)
  | some img =>
    if 0 ≤ x ∧ x < (img.width : Int) ∧ 0 ≤ y ∧ y < (img.height : Int) then
      ({ s with image := some (img.setPixel x.toNat y.toNat s.current_color_index) },
       some (x, y, s.current_color_index))
    else
      (s, none)

/-- Modelled from the spec: section 4.2 demands that
`set(x, y, index)` fail with a `RangeError` when `(x, y)` is outside
`[0,width) x [0,height)`.  This definition follows the spec's words (an
error outcome on out-of-bounds coordinates) and exists only to be
compared with `draw_pixel`, the definition taken from the code. -/
def draw_pixel_spec (img : Img) (x y : Int) (v : Nat) : Except String Img :=
  if 0 ≤ x ∧ x < (img.width : Int) ∧ 0 ≤ y ∧ y < (img.height : Int) then
    Except.ok (img.setPixel x.toNat y.toNat v)
  else
    Except.error "RangeError"

/-- `clear_selection`. -/
def clear_selection (s : Canvas) : Canvas :=
  { s with selection_start := none, selection_end := none }

/-- Python `range(a, b + 1)` over integers, i.e. `a, a+1, ..., b`. -/
def intRange (a b : Int) : List Int :=
  (List.range (b + 1 - a).toNat).map fun i : Nat => a + (i : Int)

/-- `PixelEditorCanvas.copy_selection`: requires a loaded image and both
selection corners (else returns `False`); normalizes the rectangle,
reads the buffer row-major across it substituting 0 for any coordinate
outside the buffer, stores payload and size in the clipboard and returns
`True`.  (The method itself only emits `selectionChanged(False)`; the
selection is cleared by its caller, see `editor_copy_selection`.) -/
def copy_selection (s : Canvas) : Canvas × Bool :=
  match s.image, s.selection_start, s.selection_end with
  | some img, some st, some en =>
    let x1 := min st.1 en.1
    let y1 := min st.2 en.2
    let x2 := max st.1 en.1
    let y2 := max st.2 en.2
    let payload := (intRange y1 y2).flatMap fun y =>
      (intRange x1 x2).map fun x =>
        if 0 ≤ x ∧ x < (img.width : Int) ∧ 0 ≤ y ∧ y < (img.height : Int) then
          img.pixelIndex x.toNat y.toNat
        else 0
    ({ s with
        clipboard_data := some payload
        clipboard_size := some ((x2 - x1 + 1).toNat, (y2 - y1 + 1).toNat) }, true)
  | _, _, _ => (s, false)

/-- `MonkeyIslandFontEditor.copy_selection`: invokes the canvas copy and,
when it succeeds, clears the active selection (the message boxes are
display only). -/
def editor_copy_selection (s : Canvas) : Canvas × Bool :=
  let r := copy_selection s
  if r.2 then (clear_selection r.1, true) else (r.1, false)

/-- `start_paste_mode`: requires a non-empty clipboard (Python truthiness
of `clipboard_data` and `clipboard_size`); enters paste mode with the
overlay at `(0, 0)`. -/
def start_paste_mode (s : Canvas) : Canvas × Bool :=
  if optTruthy s.clipboard_data = false ∨ s.clipboard_size = none then (s, false)
  else ({ s with paste_mode := true, paste_position := some (0, 0) }, true)

/-- The pixel-writing double loop of `commit_paste`: for `dy` in
`range(ch)`, `dx` in `range(cw)`, write clipboard cell `dy * cw + dx` at
`(px + dx, py + dy)` when that target lies inside the buffer and the
cell index is inside the payload, else skip the cell. -/
def pasteAt (img : Img) (clip : List Nat) (px py : Int) (cw ch : Nat) : Img :=
  ((List.range ch).flatMap fun dy => (List.range cw).map fun dx => (dy, dx)).foldl
    (fun im p =>
      let tx := px + (p.2 : Int)
      let ty := py + (p.1 : Int)
      if 0 ≤ tx ∧ tx < (im.width : Int) ∧ 0 ≤ ty ∧ ty < (im.height : Int) ∧
          p.1 * cw + p.2 < clip.length then
        im.setPixel tx.toNat ty.toNat (clip.getD (p.1 * cw + p.2) 0)
      else im) img

/-- `save_state`: no-op without an image; otherwise captures the current
buffer row-major, appends `(pixel_data, description, width, height)` to
the undo stack, evicts the oldest entry (`pop(0)`) when the stack
exceeds `max_history`, and unconditionally clears the redo stack. -/
def save_state (s : Canvas) (description : String) : Canvas :=
  match s.image with
  | none => s
  | some img =>
    let u1 := s.undo_stack ++ [capSnap img description]
    let u2 := if u1.length > maxHistory then u1.tail else u1
    { s with undo_stack := u2, redo_stack := [] }

/-- `commit_paste`: returns `False` without touching anything when paste
mode is off, the clipboard is missing or empty, or there is no overlay
position; otherwise calls `save_state("Paste")` first, then writes the
clipboard into the buffer at the overlay position with per-cell
clipping, leaves paste mode and returns `True`.  The fall-through arm is
unreachable in states the editor produces (paste mode is only entered
with clipboard data and size both set and an image loaded; the Python
code would raise there rather than return). -/
def commit_paste (s : Canvas) : Canvas × Bool :=
  if s.paste_mode = false ∨ optTruthy s.clipboard_data = false ∨ s.paste_position = none then
    (s, false)
  else
    match s.image, s.clipboard_data, s.paste_position, s.clipboard_size with
    | some img, some clip, some pos, some sz =>
      let s1 := save_state s "Paste"
      let img2 := pasteAt img clip pos.1 pos.2 sz.1 sz.2
      ({ s1 with image := some img2, paste_mode := false, paste_position := none }, true)
    | _, _, _, _ => (s, false)

/-- `cancel_paste`. -/
def cancel_paste (s : Canvas) : Canvas :=
  { s with paste_mode := false, paste_position := none }

/-- `undo`: returns `False` when no image is loaded or the undo stack is
empty.  Otherwise it first appends a capture of the current buffer to
the redo stack, then pops the most recent undo entry; the entry is
restored into the buffer only when its recorded width and height equal
the current buffer's, in which case the call returns `True`; on a
mismatch the popped entry stays consumed, the buffer is untouched and
the call returns `False`. -/
def undo (s : Canvas) : Canvas × Bool :=
  match s.image with
  | none => (s, false)
  | some img =>
    match s.undo_stack.getLast? with
    | none => (s, false)
    | some e =>
      let redo2 := s.redo_stack ++ [capSnap img "Current"]
      let undo2 := s.undo_stack.dropLast
      if e.2.2.1 = img.width ∧ e.2.2.2 = img.height then
        let img2 := { img with data := writeRowMajor img.width img.height e.1 img.data }
        ({ s with image := some img2, undo_stack := undo2, redo_stack := redo2 }, true)
      else
        ({ s with undo_stack := undo2, redo_stack := redo2 }, false)

/-- `redo`: symmetric to `undo`, except that the capture of the current
buffer is appended to the undo stack without any size bound. -/
def redo (s : Canvas) : Canvas × Bool :=
  match s.image with
  | none => (s, false)
  | some img =>
    match s.redo_stack.getLast? with
    | none => (s, false)
    | some e =>
      let undo2 := s.undo_stack ++ [capSnap img "Current"]
      let redo2 := s.redo_stack.dropLast
      if e.2.2.1 = img.width ∧ e.2.2.2 = img.height then
        let img2 := { img with data := writeRowMajor img.width img.height e.1 img.data }
        ({ s with image := some img2, undo_stack := undo2, redo_stack := redo2 }, true)
      else
        ({ s with undo_stack := undo2, redo_stack := redo2 }, false)

/-- `can_undo`. -/
def can_undo (s : Canvas) : Bool := decide (0 < s.undo_stack.length)

/-- `can_redo`. -/
def can_redo (s : Canvas) : Bool := decide (0 < s.redo_stack.length)

/-- The operations the surrounding application can invoke on the canvas
(used to characterise reachable states).  `drawClick` is the draw branch
of `mousePressEvent`: `save_state("Draw")` followed by `draw_pixel`. -/
inductive Op where
  | load (pil : PILImage)
  | saveState (description : String)
  | doUndo
  | doRedo
  | drawClick (x y : Int)
  | copySel
  | startPaste
  | commitPaste
  | cancelPaste
  | clearSel

def stepOp (s : Canvas) (op : Op) : Canvas :=
  match op with
  | Op.load pil => load_image s pil
  | Op.saveState d => save_state s d
  | Op.doUndo => (undo s).1
  | Op.doRedo => (redo s).1
  | Op.drawClick x y => (draw_pixel (save_state s "Draw") x y).1
  | Op.copySel => (editor_copy_selection s).1
  | Op.startPaste => (start_paste_mode s).1
  | Op.commitPaste => (commit_paste s).1
  | Op.cancelPaste => cancel_paste s
  | Op.clearSel => clear_selection s

def runOps (ops : List Op) (s : Canvas) : Canvas := ops.foldl stepOp s

/-- A buffer transformation that keeps the image size (width, height and
data length): the shape of every in-editor mutation (pixel writes and
clipped pastes never resize the buffer). -/
def DimPreserving (f : Img → Img) : Prop :=
  ∀ img : Img, (f img).width = img.width ∧ (f img).height = img.height ∧
    (f img).data.length = img.data.length

/-- One protected mutation: `save_state` followed by a buffer
transformation, as in the draw branch of `mousePressEvent` and in
`commit_paste`. -/
def mutStep (s : Canvas) (f : Img → Img) (d : String) : Canvas :=
  let s1 := save_state s d
  { s1 with image := s1.image.map f }

def applyMuts (fs : List ((Img → Img) × String)) (s : Canvas) : Canvas :=
  fs.foldl (fun t p => mutStep t p.1 p.2) s

def applyAll (fs : List ((Img → Img) × String)) (img : Img) : Img :=
  fs.foldl (fun i p => p.1 i) img

def undoN : Nat → Canvas → Canvas
  | 0, s => s
  | n + 1, s => undoN n (undo s).1

def redoN : Nat → Canvas → Canvas
  | 0, s => s
  | n + 1, s => redoN n (redo s).1

/-- The successive buffer states produced by a mutation sequence:
`ascImgs fs img = [f1 img, f2 (f1 img), ...]`. -/
def ascImgs : List ((Img → Img) × String) → Img → List Img
  | [], _ => []
  | p :: fs, img => p.1 img :: ascImgs fs (p.1 img)

/-! ### Helper lemmas about the row-major loops -/

lemma rowMajorIdx_eq_range (w h : Nat) : rowMajorIdx w h = List.range (h * w) := by
  induction h with
  | zero => simp [rowMajorIdx]
  | succ n ih =>
    have h1 : rowMajorIdx w (n + 1) =
        rowMajorIdx w n ++ (List.range w).map fun x => n * w + x := by
      simp [rowMajorIdx, List.range_succ, List.flatMap_append]
    rw [h1, ih, Nat.succ_mul, List.range_add]

lemma range_map_getD (l : List Nat) :
    (List.range l.length).map (fun i => l.getD i 0) = l := by
  apply List.ext_getElem
  · simp
  · intro i h1 h2
    simp [List.getD_eq_getElem?_getD, List.getElem?_eq_getElem h2]

lemma captureData_eq (img : Img) (hwf : img.WF) : captureData img = img.data := by
  have h1 : captureData img =
      (rowMajorIdx img.width img.height).map fun k => img.data.getD k 0 := by
    simp only [captureData, rowMajorIdx, List.map_flatMap, List.map_map]
    rfl
  rw [h1, rowMajorIdx_eq_range]
  have h2 : img.height * img.width = img.data.length := by
    rw [hwf, Nat.mul_comm]
  rw [h2, range_map_getD]

lemma captureData_length (img : Img) (hwf : img.WF) :
    (captureData img).length = img.width * img.height := by
  rw [captureData_eq img hwf]; exact hwf

lemma foldl_set_range (src : List Nat) :
    ∀ (n : Nat) (base : List Nat), n ≤ src.length → n ≤ base.length →
    (List.range n).foldl
      (fun d idx => if idx < src.length then d.set idx (src.getD idx 0) else d) base
      = src.take n ++ base.drop n := by
  intro n
  induction n with
  | zero => intro base h1 h2; simp
  | succ m ih =>
    intro base h1 h2
    rw [List.range_succ, List.foldl_append, ih base (by omega) (by omega)]
    simp only [List.foldl_cons, List.foldl_nil]
    have hm1 : m < src.length := by omega
    rw [if_pos hm1]
    have hmb : m < base.length := by omega
    have hdrop : base.drop m = base[m] :: base.drop (m + 1) :=
      List.drop_eq_getElem_cons hmb
    have htk : (src.take m).length = m := by simp; omega
    rw [hdrop, List.set_append]
    rw [htk]
    simp only [Nat.lt_irrefl, if_neg, Nat.sub_self]
    have : (base[m] :: base.drop (m + 1)).set 0 (src.getD m 0)
        = src.getD m 0 :: base.drop (m + 1) := rfl
    rw [this]
    have hts : src.take (m + 1) = src.take m ++ [src[m]] := by
      rw [List.take_succ, List.getElem?_eq_getElem hm1]; rfl
    rw [hts, List.getD_eq_getElem _ _ hm1, List.append_assoc, List.singleton_append]
    simp

lemma writeRowMajor_eq (w h : Nat) (src base : List Nat)
    (hb : base.length = w * h) (hs : src.length = w * h) :
    writeRowMajor w h src base = src := by
  have hhs : h * w = src.length := by rw [hs, Nat.mul_comm]
  have hhb : h * w = base.length := by rw [hb, Nat.mul_comm]
  rw [writeRowMajor, rowMajorIdx_eq_range]
  rw [foldl_set_range src (h * w) base (by omega) (by omega)]
  rw [List.take_of_length_le (by omega), List.drop_of_length_le (by omega),
    List.append_nil]

lemma foldl_set_length (src : List Nat) :
    ∀ (l : List Nat) (base : List Nat),
    (l.foldl (fun d idx => if idx < src.length then d.set idx (src.getD idx 0) else d)
      base).length = base.length := by
  intro l
  induction l with
  | nil => intro base; rfl
  | cons a l ih =>
    intro base
    simp only [List.foldl_cons]
    rw [ih]
    by_cases hc : a < src.length
    · rw [if_pos hc]; simp
    · rw [if_neg hc]

lemma writeRowMajor_length (w h : Nat) (src base : List Nat) :
    (writeRowMajor w h src base).length = base.length :=
  foldl_set_length src (rowMajorIdx w h) base

/-! ### Concrete states used as witnesses and counterexamples -/

/-- A 2 x 2 test buffer. -/
def img2 : Img := { width := 2, height := 2, data := [0, 0, 0, 0] }

/-- A 1 x 1 indexed-color source file. -/
def pilP : PILImage :=
  { mode := PILMode.P, palette := [10, 20, 30], width := 1, height := 1, pixels := [0] }

/-- A state with an active selection, clipboard contents and a live paste
session, used to probe what `load_image` resets. -/
def busyState : Canvas :=
  { initCanvas with
      image := some img2
      selection_start := some (1, 1)
      selection_end := some (2, 2)
      clipboard_data := some [3]
      clipboard_size := some (1, 1)
      paste_mode := true
      paste_position := some (0, 0) }

/-- A loaded 2 x 2 state whose two history stacks each hold one snapshot
recorded from a 1 x 1 buffer (a dimension mismatch with the current
buffer). -/
def mismatchState : Canvas :=
  { initCanvas with
      image := some img2
      undo_stack := [([9], "a", 1, 1)]
      redo_stack := [([8], "b", 1, 1)] }

/-- A loaded 2 x 2 state with no history. -/
def loaded2 : Canvas := { initCanvas with image := some img2 }

/-! ### C1: character-height detection -/

/-- C1 counterexample: the claim says that for a height outside the
lookup table the derived char height is floor(height/256) clamped to a
minimum of 1, hence 1 at height 100; the code instead substitutes 8
whenever the quotient is below 1. -/
theorem c1_counterexample :
    detectCharHeight 100 = 8 ∧ detectCharHeight 100 ≠ max 1 (100 / 256) := by
  decide

/-- C1 (amended): for a loaded height in the lookup table, char height is
the table value (2048 to 8, 2259 to 9, 3390 to 15, 3584 to 14); outside
the table it is floor(height/256) when that is at least 1, and the
fallback constant 8 (not 1) when floor(height/256) is 0. -/
theorem c1_char_height_amended :
    (∀ h : Nat, h ∉ ([2048, 2259, 3390, 3584] : List Nat) → 256 ≤ h →
      detectCharHeight h = h / 256) ∧
    (∀ h : Nat, h ∉ ([2048, 2259, 3390, 3584] : List Nat) → h < 256 →
      detectCharHeight h = 8) ∧
    detectCharHeight 2048 = 8 ∧ detectCharHeight 2259 = 9 ∧
    detectCharHeight 3390 = 15 ∧ detectCharHeight 3584 = 14 := by
  refine ⟨?_, ?_, by decide, by decide, by decide, by decide⟩
  · intro h hmem hge
    simp only [List.mem_cons, List.mem_singleton, not_or] at hmem
    obtain ⟨h1, h2, h3, h4, -⟩ := hmem
    have hq : 1 ≤ h / 256 := (Nat.one_le_div_iff (by omega)).2 hge
    rw [detectCharHeight, if_neg h1, if_neg h2, if_neg h3, if_neg h4,
      if_neg (by omega)]
  · intro h hmem hlt
    simp only [List.mem_cons, List.mem_singleton, not_or] at hmem
    obtain ⟨h1, h2, h3, h4, -⟩ := hmem
    have hq : h / 256 = 0 := Nat.div_eq_of_lt hlt
    rw [detectCharHeight, if_neg h1, if_neg h2, if_neg h3, if_neg h4,
      if_pos (by omega)]

/-- C1 witness: the amended theorem evaluated at heights 520 (fallback,
table miss) and 100 (below one character row). -/
theorem c1_witness :
    detectCharHeight 520 = 520 / 256 ∧ detectCharHeight 100 = 8 :=
  ⟨c1_char_height_amended.1 520 (by decide) (by decide),
   c1_char_height_amended.2.1 100 (by decide) (by decide)⟩

/-! ### C4: what loading a new strip resets -/

/-- C4 counterexample: loading a new strip into a state with an active
selection, clipboard payload and live paste session leaves all three in
place; the claim that they are empty/inactive after `load(path)` is
false.  Only the history stacks are cleared. -/
theorem c4_counterexample :
    (load_image busyState pilP).selection_start = some (1, 1) ∧
    (load_image busyState pilP).clipboard_data = some [3] ∧
    (load_image busyState pilP).paste_mode = true :=
  ⟨rfl, rfl, rfl⟩

/-- C4 (amended): after `load_image` the undo and redo stacks are always
empty, but the selection, clipboard payload and paste session are left
exactly as they were before the load (they are not reset). -/
theorem c4_load_resets_amended :
    ∀ (s : Canvas) (pil : PILImage),
      (load_image s pil).undo_stack = [] ∧
      (load_image s pil).redo_stack = [] ∧
      (load_image s pil).selection_start = s.selection_start ∧
      (load_image s pil).selection_end = s.selection_end ∧
      (load_image s pil).clipboard_data = s.clipboard_data ∧
      (load_image s pil).clipboard_size = s.clipboard_size ∧
      (load_image s pil).paste_mode = s.paste_mode ∧
      (load_image s pil).paste_position = s.paste_position :=
  fun _ _ => ⟨rfl, rfl, rfl, rfl, rfl, rfl, rfl, rfl⟩

/-! ### C8: out-of-bounds pixel writes -/

/-- C8 counterexample: on the out-of-bounds coordinate (5, 5) of a 2 x 2
buffer the code's `draw_pixel` returns the state unchanged with no
`pixelChanged` signal and no error of any kind (the Python method always
returns `None`): the write is silently ignored, while the claim demands
a reported `RangeError`, as the spec-modelled `draw_pixel_spec` would
produce. -/
theorem c8_counterexample :
    draw_pixel loaded2 5 5 = (loaded2, none) ∧
    draw_pixel_spec img2 5 5 1 = Except.error "RangeError" := by
  constructor
  · rfl
  · rfl

/-- C8 (amended): setting a pixel at a coordinate outside
[0,width) x [0,height) leaves the buffer (indeed the whole state)
unchanged and is silently ignored: no signal is emitted and no error is
reported to the caller. -/
theorem c8_oob_set_silent :
    ∀ (s : Canvas) (img : Img) (x y : Int), s.image = some img →
      ¬(0 ≤ x ∧ x < (img.width : Int) ∧ 0 ≤ y ∧ y < (img.height : Int)) →
      draw_pixel s x y = (s, none) := by
  intro s img x y hs hnb
  simp only [draw_pixel, hs]
  rw [if_neg hnb]

/-- C8 witness: the amended theorem applied at the concrete coordinate
(-1, 0) of a loaded 2 x 2 buffer. -/
theorem c8_witness : draw_pixel loaded2 (-1) 0 = (loaded2, none) :=
  c8_oob_set_silent loaded2 img2 (-1) 0 rfl (by decide)

/-! ### C5: palette round-trip -/

/-- C5: for an indexed-color (mode P) source with a non-empty embedded
palette, saving immediately after loading emits exactly the palette
captured at load time, byte for byte; `save_image` writes the stored
`original_palette` and never recomputes it. -/
theorem c5_palette_roundtrip :
    ∀ (s : Canvas) (pil : PILImage), pil.mode = PILMode.P → pil.palette ≠ [] →
      (save_image (load_image s pil)).map SavedBMP.palette = some pil.palette := by
  intro s pil hm hp
  simp only [load_image, save_image, hm, if_pos]
  rw [if_neg hp]
  rfl

/-- C5 witness: the round-trip theorem applied to a concrete 1 x 1
indexed source. -/
theorem c5_witness :
    (save_image (load_image initCanvas pilP)).map SavedBMP.palette = some [10, 20, 30] :=
  c5_palette_roundtrip initCanvas pilP rfl (by decide)

/-! ### C3: dimension mismatch on undo/redo -/

/-- C3: when the popped undo snapshot's recorded size differs from the
current buffer's, the entry is still consumed (the stack shrinks by
exactly that entry), the buffer is left completely unchanged, and the
call returns failure; symmetrically for redo. -/
theorem c3_dimension_mismatch :
    (∀ (s : Canvas) (img : Img) (e : Snap), s.image = some img →
      s.undo_stack.getLast? = some e →
      ¬(e.2.2.1 = img.width ∧ e.2.2.2 = img.height) →
      (undo s).1.image = s.image ∧
      (undo s).1.undo_stack = s.undo_stack.dropLast ∧
      (undo s).2 = false) ∧
    (∀ (s : Canvas) (img : Img) (e : Snap), s.image = some img →
      s.redo_stack.getLast? = some e →
      ¬(e.2.2.1 = img.width ∧ e.2.2.2 = img.height) →
      (redo s).1.image = s.image ∧
      (redo s).1.redo_stack = s.redo_stack.dropLast ∧
      (redo s).2 = false) := by
  constructor
  · intro s img e hs he hne
    simp only [undo, hs, he]
    rw [if_neg hne]
    exact ⟨rfl, rfl, rfl⟩
  · intro s img e hs he hne
    simp only [redo, hs, he]
    rw [if_neg hne]
    exact ⟨rfl, rfl, rfl⟩

/-- C3 witness: both halves applied to a concrete state holding 1 x 1
snapshots over a 2 x 2 buffer. -/
theorem c3_witness :
    ((undo mismatchState).1.image = mismatchState.image ∧
      (undo mismatchState).1.undo_stack = mismatchState.undo_stack.dropLast ∧
      (undo mismatchState).2 = false) ∧
    ((redo mismatchState).1.image = mismatchState.image ∧
      (redo mismatchState).1.redo_stack = mismatchState.redo_stack.dropLast ∧
      (redo mismatchState).2 = false) :=
  ⟨c3_dimension_mismatch.1 mismatchState img2 ([9], "a", 1, 1) rfl rfl (by decide),
   c3_dimension_mismatch.2 mismatchState img2 ([8], "b", 1, 1) rfl rfl (by decide)⟩

/-! ### C10: a failed undo still grows the redo stack -/

/-- C10: a dimension-mismatched undo has already appended a capture of
the current (unmodified) buffer to the redo stack before the mismatch is
detected, so the redo stack grows by one and `can_redo` turns true even
though the undo reported failure; symmetrically a failed redo leaves an
extra capture on the undo stack and `can_undo` true. -/
theorem c10_failed_undo_feeds_redo :
    (∀ (s : Canvas) (img : Img) (e : Snap), s.image = some img →
      s.undo_stack.getLast? = some e →
      ¬(e.2.2.1 = img.width ∧ e.2.2.2 = img.height) →
      (undo s).1.redo_stack = s.redo_stack ++ [capSnap img "Current"] ∧
      (undo s).1.redo_stack.length = s.redo_stack.length + 1 ∧
      can_redo (undo s).1 = true ∧
      (undo s).2 = false) ∧
    (∀ (s : Canvas) (img : Img) (e : Snap), s.image = some img →
      s.redo_stack.getLast? = some e →
      ¬(e.2.2.1 = img.width ∧ e.2.2.2 = img.height) →
      (redo s).1.undo_stack = s.undo_stack ++ [capSnap img "Current"] ∧
      (redo s).1.undo_stack.length = s.undo_stack.length + 1 ∧
      can_undo (redo s).1 = true ∧
      (redo s).2 = false) := by
  constructor
  · intro s img e hs he hne
    simp only [undo, hs, he]
    rw [if_neg hne]
    refine ⟨rfl, by simp, by simp [can_redo], rfl⟩
  · intro s img e hs he hne
    simp only [redo, hs, he]
    rw [if_neg hne]
    refine ⟨rfl, by simp, by simp [can_undo], rfl⟩

/-- C10 witness: both halves applied to the concrete mismatch state. -/
theorem c10_witness :
    ((undo mismatchState).1.redo_stack
        = mismatchState.redo_stack ++ [capSnap img2 "Current"] ∧
      (undo mismatchState).1.redo_stack.length
        = mismatchState.redo_stack.length + 1 ∧
      can_redo (undo mismatchState).1 = true ∧
      (undo mismatchState).2 = false) ∧
    ((redo mismatchState).1.undo_stack
        = mismatchState.undo_stack ++ [capSnap img2 "Current"] ∧
      (redo mismatchState).1.undo_stack.length
        = mismatchState.undo_stack.length + 1 ∧
      can_undo (redo mismatchState).1 = true ∧
      (redo mismatchState).2 = false) :=
  ⟨c10_failed_undo_feeds_redo.1 mismatchState img2 ([9], "a", 1, 1) rfl rfl (by decide),
   c10_failed_undo_feeds_redo.2 mismatchState img2 ([8], "b", 1, 1) rfl rfl (by decide)⟩

/-! ### C2: the history stacks stay bounded -/

/-- The stack-size invariant maintained by every canvas operation: the
two stacks together never hold more than `max_history` snapshots (the
redo stack only ever receives entries that undo just removed from the
undo stack, and `save_state` clears it). -/
def histInv (s : Canvas) : Prop :=
  s.undo_stack.length + s.redo_stack.length ≤ maxHistory

lemma histInv_save_state (s : Canvas) (d : String) (h : histInv s) :
    histInv (save_state s d) := by
  unfold histInv at h ⊢
  cases hs : s.image with
  | none => simpa [save_state, hs] using h
  | some img =>
    simp only [save_state, hs]
    by_cases hc : (s.undo_stack ++ [capSnap img d]).length > maxHistory
    · rw [if_pos hc]
      simp only [List.length_tail, List.length_append, List.length_cons,
        List.length_nil, List.length_nil]
      simp only [maxHistory] at h ⊢
      omega
    · rw [if_neg hc]
      simp only [List.length_append, List.length_cons, List.length_nil] at hc ⊢
      omega

lemma histInv_undo (s : Canvas) (h : histInv s) : histInv (undo s).1 := by
  unfold histInv at h ⊢
  cases hs : s.image with
  | none => simpa [undo, hs] using h
  | some img =>
    cases he : s.undo_stack.getLast? with
    | none => simpa [undo, hs, he] using h
    | some e =>
      have hne : s.undo_stack ≠ [] := by
        intro hh; rw [hh] at he; simp at he
      have hpos : 0 < s.undo_stack.length := List.length_pos.2 hne
      simp only [undo, hs, he]
      by_cases hd : e.2.2.1 = img.width ∧ e.2.2.2 = img.height
      · rw [if_pos hd]
        simp only [List.length_dropLast, List.length_append, List.length_cons,
          List.length_nil]
        omega
      · rw [if_neg hd]
        simp only [List.length_dropLast, List.length_append, List.length_cons,
          List.length_nil]
        omega

lemma histInv_redo (s : Canvas) (h : histInv s) : histInv (redo s).1 := by
  unfold histInv at h ⊢
  cases hs : s.image with
  | none => simpa [redo, hs] using h
  | some img =>
    cases he : s.redo_stack.getLast? with
    | none => simpa [redo, hs, he] using h
    | some e =>
      have hne : s.redo_stack ≠ [] := by
        intro hh; rw [hh] at he; simp at he
      have hpos : 0 < s.redo_stack.length := List.length_pos.2 hne
      simp only [redo, hs, he]
      by_cases hd : e.2.2.1 = img.width ∧ e.2.2.2 = img.height
      · rw [if_pos hd]
        simp only [List.length_dropLast, List.length_append, List.length_cons,
          List.length_nil]
        omega
      · rw [if_neg hd]
        simp only [List.length_dropLast, List.length_append, List.length_cons,
          List.length_nil]
        omega

lemma stacks_draw_pixel (s : Canvas) (x y : Int) :
    (draw_pixel s x y).1.undo_stack = s.undo_stack ∧
    (draw_pixel s x y).1.redo_stack = s.redo_stack := by
  cases hs : s.image with
  | none => simp [draw_pixel, hs]
  | some img =>
    simp only [draw_pixel, hs]
    split
    · exact ⟨rfl, rfl⟩
    · exact ⟨rfl, rfl⟩

lemma stacks_copy_selection (s : Canvas) :
    (copy_selection s).1.undo_stack = s.undo_stack ∧
    (copy_selection s).1.redo_stack = s.redo_stack := by
  simp only [copy_selection]
  split
  · exact ⟨rfl, rfl⟩
  · exact ⟨rfl, rfl⟩

lemma stacks_editor_copy (s : Canvas) :
    (editor_copy_selection s).1.undo_stack = s.undo_stack ∧
    (editor_copy_selection s).1.redo_stack = s.redo_stack := by
  have h1 := stacks_copy_selection s
  simp only [editor_copy_selection]
  split
  · exact ⟨h1.1, h1.2⟩
  · exact ⟨h1.1, h1.2⟩

lemma stacks_start_paste (s : Canvas) :
    (start_paste_mode s).1.undo_stack = s.undo_stack ∧
    (start_paste_mode s).1.redo_stack = s.redo_stack := by
  simp only [start_paste_mode]
  split
  · exact ⟨rfl, rfl⟩
  · exact ⟨rfl, rfl⟩

lemma histInv_commit_paste (s : Canvas) (h : histInv s) :
    histInv (commit_paste s).1 := by
  unfold commit_paste
  split
  · exact h
  · split
    · exact histInv_save_state s "Paste" h
    · exact h

lemma histInv_step (s : Canvas) (op : Op) (h : histInv s) :
    histInv (stepOp s op) := by
  cases op with
  | load pil => simp [histInv, stepOp, load_image, maxHistory]
  | saveState d => exact histInv_save_state s d h
  | doUndo => exact histInv_undo s h
  | doRedo => exact histInv_redo s h
  | drawClick x y =>
    have h1 := histInv_save_state s "Draw" h
    have h2 := stacks_draw_pixel (save_state s "Draw") x y
    unfold histInv at h1 ⊢
    rw [stepOp, h2.1, h2.2]
    exact h1
  | copySel =>
    have h2 := stacks_editor_copy s
    unfold histInv at h ⊢
    rw [stepOp, h2.1, h2.2]
    exact h
  | startPaste =>
    have h2 := stacks_start_paste s
    unfold histInv at h ⊢
    rw [stepOp, h2.1, h2.2]
    exact h
  | commitPaste => exact histInv_commit_paste s h
  | cancelPaste => exact h
  | clearSel => exact h

lemma histInv_run (ops : List Op) : ∀ s : Canvas, histInv s → histInv (runOps ops s) := by
  induction ops with
  | nil => intro s h; exact h
  | cons op ops ih => intro s h; exact ih _ (histInv_step s op h)

/-- C2: in every state reachable by any operation sequence from the
initial canvas, the undo stack holds at most `max_history` (50) entries,
and a `save_state` on a full stack evicts exactly the oldest entry
before the new snapshot lands at the top. -/
theorem c2_history_bound :
    (∀ ops : List Op, (runOps ops initCanvas).undo_stack.length ≤ maxHistory) ∧
    (∀ (s : Canvas) (img : Img) (d : String), s.image = some img →
      s.undo_stack.length = maxHistory →
      (save_state s d).undo_stack = s.undo_stack.tail ++ [capSnap img d]) := by
  constructor
  · intro ops
    have h := histInv_run ops initCanvas (by simp [histInv, initCanvas, maxHistory])
    unfold histInv at h
    omega
  · intro s img d hs hlen
    have hne : s.undo_stack ≠ [] := by
      intro hh
      rw [hh] at hlen
      simp [maxHistory] at hlen
    simp only [save_state, hs]
    rw [if_pos (by simp [hlen, maxHistory]), List.tail_append_of_ne_nil hne]

/-- A loaded state whose undo stack is exactly full. -/
def fullStack : Canvas :=
  { initCanvas with
      image := some img2
      undo_stack := List.replicate 50 ([], "x", 2, 2) }

/-- C2 witness: the bound evaluated after two concrete `save_state`
operations from the initial state, and the eviction equation evaluated
on a concrete full stack. -/
theorem c2_witness :
    (runOps [Op.saveState "a", Op.saveState "b"] initCanvas).undo_stack.length
      ≤ maxHistory ∧
    (save_state fullStack "new").undo_stack
      = fullStack.undo_stack.tail ++ [capSnap img2 "new"] :=
  ⟨c2_history_bound.1 [Op.saveState "a", Op.saveState "b"],
   c2_history_bound.2 fullStack img2 "new" rfl (by simp [fullStack, maxHistory])⟩

/-! ### C6: copy with zero-padding outside the canvas -/

lemma grid_length {β : Type} (rh rw : Nat) (f : Nat → Nat → β) :
    ((List.range rh).flatMap fun y => (List.range rw).map fun x => f y x).length
      = rh * rw := by
  induction rh with
  | zero => simp
  | succ n ih =>
    simp only [List.range_succ, List.flatMap_append, List.length_append, ih,
      List.flatMap_cons, List.flatMap_nil, List.append_nil, List.length_map,
      List.length_range]
    rw [Nat.succ_mul]

lemma grid_getD {β : Type} (d : β) :
    ∀ (rh : Nat) (f : Nat → Nat → β) (rw i j : Nat), i < rh → j < rw →
    (((List.range rh).flatMap fun y => (List.range rw).map fun x => f y x).getD
      (i * rw + j) d) = f i j := by
  intro rh
  induction rh with
  | zero => intro f rw i j hi hj; exact absurd hi (Nat.not_lt_zero i)
  | succ n ih =>
    intro f rw i j hi hj
    rw [List.range_succ_eq_map, List.flatMap_cons, List.flatMap_map]
    cases i with
    | zero =>
      have hlt : 0 * rw + j < ((List.range rw).map fun x => f 0 x).length := by
        simp [hj]
      rw [List.getD_append _ _ _ _ hlt]
      rw [List.getD_eq_getElem _ _ (by simp [hj]), List.getElem_map, List.getElem_range,
        Nat.zero_mul, Nat.zero_add]
    | succ k =>
      have hge : ((List.range rw).map fun x => f 0 x).length ≤ (k + 1) * rw + j := by
        simp only [List.length_map, List.length_range]
        rw [Nat.succ_mul]
        omega
      rw [List.getD_append_right _ _ _ _ hge]
      have hlen : ((List.range rw).map fun x => f 0 x).length = rw := by simp
      rw [hlen]
      have hidx : (k + 1) * rw + j - rw = k * rw + j := by
        rw [Nat.succ_mul]; omega
      rw [hidx]
      exact ih (fun y x => f (y + 1) x) rw k j (by omega) hj

lemma copy_selection_eq (s : Canvas) (img : Img) (st en : Int × Int)
    (hs : s.image = some img) (hst : s.selection_start = some st)
    (hen : s.selection_end = some en) :
    copy_selection s = ({ s with
      clipboard_data := some ((intRange (min st.2 en.2) (max st.2 en.2)).flatMap fun y =>
        (intRange (min st.1 en.1) (max st.1 en.1)).map fun x =>
          if 0 ≤ x ∧ x < (img.width : Int) ∧ 0 ≤ y ∧ y < (img.height : Int) then
            img.pixelIndex x.toNat y.toNat
          else 0)
      clipboard_size := some ((max st.1 en.1 - min st.1 en.1 + 1).toNat,
                              (max st.2 en.2 - min st.2 en.2 + 1).toNat) }, true) := by
  simp only [copy_selection, hs, hst, hen]

lemma payload_reshape (img : Img) (x1 y1 x2 y2 : Int) :
    ((intRange y1 y2).flatMap fun y => (intRange x1 x2).map fun x =>
      if 0 ≤ x ∧ x < (img.width : Int) ∧ 0 ≤ y ∧ y < (img.height : Int) then
        img.pixelIndex x.toNat y.toNat
      else 0) =
    (List.range (y2 - y1 + 1).toNat).flatMap fun i : Nat =>
      (List.range (x2 - x1 + 1).toNat).map fun j : Nat =>
        if 0 ≤ x1 + (j : Int) ∧ x1 + (j : Int) < (img.width : Int) ∧
            0 ≤ y1 + (i : Int) ∧ y1 + (i : Int) < (img.height : Int) then
          img.pixelIndex (x1 + (j : Int)).toNat (y1 + (i : Int)).toNat
        else 0 := by
  unfold intRange
  rw [show y2 + 1 - y1 = y2 - y1 + 1 from by ring,
    show x2 + 1 - x1 = x2 - x1 + 1 from by ring]
  rw [List.flatMap_map]
  refine congrArg _ (funext fun a => ?_)
  rw [List.map_map]
  rfl

/-- C6: the application-level copy fails when either selection corner is
missing; with an active selection it returns success, clears the
selection, records the normalized rectangle size, and stores a payload
of exactly rectangleHeight * rectangleWidth entries read row-major, each
entry being the buffer index at the sampled coordinate, or 0 when that
coordinate falls outside the buffer. -/
theorem c6_copy_zero_padded :
    (∀ s : Canvas, s.selection_start = none ∨ s.selection_end = none →
      editor_copy_selection s = (s, false)) ∧
    (∀ (s : Canvas) (img : Img) (st en : Int × Int) (x1 y1 x2 y2 : Int),
      s.image = some img → s.selection_start = some st → s.selection_end = some en →
      x1 = min st.1 en.1 → y1 = min st.2 en.2 →
      x2 = max st.1 en.1 → y2 = max st.2 en.2 →
      (editor_copy_selection s).2 = true ∧
      (editor_copy_selection s).1.selection_start = none ∧
      (editor_copy_selection s).1.selection_end = none ∧
      (editor_copy_selection s).1.clipboard_size
        = some ((x2 - x1 + 1).toNat, (y2 - y1 + 1).toNat) ∧
      ∃ payload : List Nat,
        (editor_copy_selection s).1.clipboard_data = some payload ∧
        payload.length = (y2 - y1 + 1).toNat * (x2 - x1 + 1).toNat ∧
        ∀ i j : Nat, i < (y2 - y1 + 1).toNat → j < (x2 - x1 + 1).toNat →
          payload.getD (i * (x2 - x1 + 1).toNat + j) 0 =
            if 0 ≤ x1 + (j : Int) ∧ x1 + (j : Int) < (img.width : Int) ∧
                0 ≤ y1 + (i : Int) ∧ y1 + (i : Int) < (img.height : Int) then
              img.pixelIndex (x1 + (j : Int)).toNat (y1 + (i : Int)).toNat
            else 0) := by
  constructor
  · intro s hsel
    have hcopy : copy_selection s = (s, false) := by
      cases hsi : s.image with
      | none => simp [copy_selection, hsi]
      | some img =>
        rcases hsel with h | h
        · simp [copy_selection, hsi, h]
        · cases hst : s.selection_start with
          | none => simp [copy_selection, hsi, hst]
          | some st => simp [copy_selection, hsi, hst, h]
    simp [editor_copy_selection, hcopy]
  · intro s img st en x1 y1 x2 y2 hs hst hen hx1 hy1 hx2 hy2
    subst hx1; subst hy1; subst hx2; subst hy2
    have hcopy := copy_selection_eq s img st en hs hst hen
    have hed : editor_copy_selection s =
        (clear_selection (copy_selection s).1, true) := by
      rw [editor_copy_selection, hcopy]
      rfl
    rw [hed, hcopy]
    refine ⟨rfl, rfl, rfl, rfl, ?_⟩
    refine ⟨_, rfl, ?_, ?_⟩
    · rw [payload_reshape]
      exact grid_length _ _ _
    · intro i j hi hj
      rw [payload_reshape]
      exact grid_getD 0 ((max st.2 en.2 - min st.2 en.2 + 1).toNat)
        (fun i j =>
          if 0 ≤ min st.1 en.1 + (j : Int) ∧
              min st.1 en.1 + (j : Int) < (img.width : Int) ∧
              0 ≤ min st.2 en.2 + (i : Int) ∧
              min st.2 en.2 + (i : Int) < (img.height : Int) then
            img.pixelIndex (min st.1 en.1 + (j : Int)).toNat
              (min st.2 en.2 + (i : Int)).toNat
          else 0)
        ((max st.1 en.1 - min st.1 en.1 + 1).toNat) i j hi hj

/-- A loaded 2 x 2 state with an active selection from (1, 1) to (2, 2):
its bottom-right corner lies outside the canvas. -/
def selState : Canvas :=
  { initCanvas with
      image := some img2
      selection_start := some (1, 1)
      selection_end := some (2, 2) }

/-- C6 witness: the failure half applied to the selection-free initial
state, and the success half applied to a concrete selection whose corner
leaves the 2 x 2 canvas. -/
theorem c6_witness :
    editor_copy_selection initCanvas = (initCanvas, false) ∧
    (editor_copy_selection selState).2 = true ∧
    (editor_copy_selection selState).1.selection_start = none :=
  ⟨c6_copy_zero_padded.1 initCanvas (Or.inl rfl),
   (c6_copy_zero_padded.2 selState img2 (1, 1) (2, 2) 1 1 2 2 rfl rfl rfl
      (by decide) (by decide) (by decide) (by decide)).1,
   (c6_copy_zero_padded.2 selState img2 (1, 1) (2, 2) 1 1 2 2 rfl rfl rfl
      (by decide) (by decide) (by decide) (by decide)).2.1⟩

/-! ### C7: committing a paste session -/

lemma flat_divmod (w a b : Nat) (hb : b < w) :
    (a * w + b) / w = a ∧ (a * w + b) % w = b := by
  have hw : 0 < w := by omega
  constructor
  · rw [Nat.mul_comm a w, Nat.mul_add_div hw, Nat.div_eq_of_lt hb, Nat.add_zero]
  · rw [Nat.mul_comm a w, Nat.mul_add_mod, Nat.mod_eq_of_lt hb]

lemma flat_unique {w a b c d : Nat} (hb : b < w) (hd : d < w)
    (h : a * w + b = c * w + d) : a = c ∧ b = d := by
  have hw : 0 < w := by omega
  have h1 : (a * w + b) / w = a := by
    rw [Nat.mul_comm a w, Nat.mul_add_div hw, Nat.div_eq_of_lt hb, Nat.add_zero]
  have h2 : (c * w + d) / w = c := by
    rw [Nat.mul_comm c w, Nat.mul_add_div hw, Nat.div_eq_of_lt hd, Nat.add_zero]
  have hac : a = c := by rw [← h1, ← h2, h]
  refine ⟨hac, ?_⟩
  subst hac
  exact Nat.add_left_cancel h

/-- The paste-loop body as a function of the flat iteration index
`k = dy * cw + dx` (each iteration of the double loop in `commit_paste`
handles one such index, in increasing order). -/
def pasteBody (clip : List Nat) (px py : Int) (cw : Nat) (im : Img) (k : Nat) : Img :=
  let tx := px + ((k % cw : Nat) : Int)
  let ty := py + ((k / cw : Nat) : Int)
  if 0 ≤ tx ∧ tx < (im.width : Int) ∧ 0 ≤ ty ∧ ty < (im.height : Int) ∧
      k < clip.length then
    im.setPixel tx.toNat ty.toNat (clip.getD k 0)
  else im

lemma pasteAt_eq_fold (img : Img) (clip : List Nat) (px py : Int) (cw ch : Nat) :
    pasteAt img clip px py cw ch
      = (List.range (ch * cw)).foldl (pasteBody clip px py cw) img := by
  have hidx : (((List.range ch).flatMap fun dy =>
        (List.range cw).map fun dx => ((dy, dx) : Nat × Nat)).map
          fun p => p.1 * cw + p.2) = List.range (ch * cw) := by
    simp only [List.map_flatMap, List.map_map]
    exact rowMajorIdx_eq_range cw ch
  rw [pasteAt, ← hidx, List.foldl_map]
  apply List.foldl_ext
  intro im p hp
  simp only [List.mem_flatMap, List.mem_map, List.mem_range] at hp
  obtain ⟨dy, hdy, dx, hdx, hpe⟩ := hp
  subst hpe
  simp only [pasteBody]
  rw [(flat_divmod cw dy dx hdx).1, (flat_divmod cw dy dx hdx).2]

/-- The per-pixel result the paste loop is heading for after its first
`n` iterations: inside the already-visited part of the overlay rectangle
the buffer holds the clipboard value, elsewhere it is untouched. -/
def pasteSpec (img : Img) (clip : List Nat) (px py : Int) (cw : Nat) (n : Nat)
    (x y : Nat) : Nat :=
  if px ≤ (x : Int) ∧ (x : Int) < px + (cw : Int) ∧ py ≤ (y : Int) ∧
      ((y : Int) - py).toNat * cw + ((x : Int) - px).toNat < n ∧
      ((y : Int) - py).toNat * cw + ((x : Int) - px).toNat < clip.length then
    clip.getD (((y : Int) - py).toNat * cw + ((x : Int) - px).toNat) 0
  else img.pixelIndex x y

lemma paste_step_char (clip : List Nat) (px py : Int) (cw : Nat) (R img : Img)
    (n : Nat) (hcw : 0 < cw) (hwf : img.WF)
    (iw : R.width = img.width) (ihh : R.height = img.height)
    (il : R.data.length = img.data.length)
    (ip : ∀ x y : Nat, x < img.width → y < img.height →
      R.pixelIndex x y = pasteSpec img clip px py cw n x y) :
    (pasteBody clip px py cw R n).width = img.width ∧
    (pasteBody clip px py cw R n).height = img.height ∧
    (pasteBody clip px py cw R n).data.length = img.data.length ∧
    (∀ x y : Nat, x < img.width → y < img.height →
      (pasteBody clip px py cw R n).pixelIndex x y
        = pasteSpec img clip px py cw (n + 1) x y) := by
  refine ⟨?_, ?_, ?_, ?_⟩
  · simp only [pasteBody]
    split
    · simpa [Img.setPixel] using iw
    · exact iw
  · simp only [pasteBody]
    split
    · simpa [Img.setPixel] using ihh
    · exact ihh
  · simp only [pasteBody]
    split
    · simpa [Img.setPixel, List.length_set] using il
    · exact il
  · intro x y hx hy
    have hmod : n % cw < cw := Nat.mod_lt n hcw
    obtain ⟨q, hq⟩ : ∃ t, n / cw = t := ⟨_, rfl⟩
    obtain ⟨m, hm⟩ : ∃ t, n % cw = t := ⟨_, rfl⟩
    have hdm : cw * q + m = n := by
      rw [← hq, ← hm]
      exact Nat.div_add_mod n cw
    rw [hm] at hmod
    simp only [pasteBody]
    rw [iw, ihh, hq, hm]
    by_cases hg : 0 ≤ px + (m : Int) ∧
        px + (m : Int) < (img.width : Int) ∧
        0 ≤ py + (q : Int) ∧
        py + (q : Int) < (img.height : Int) ∧ n < clip.length
    · rw [if_pos hg]
      obtain ⟨hg1, hg2, hg3, hg4, hg5⟩ := hg
      simp only [Img.setPixel, Img.pixelIndex]
      rw [iw]
      by_cases heq : (px + (m : Int)).toNat = x ∧ (py + (q : Int)).toNat = y
      · obtain ⟨hex, hey⟩ := heq
        have hflt : y * img.width + x < R.data.length := by
          rw [il, hwf]
          calc y * img.width + x < (y + 1) * img.width := by
                rw [Nat.succ_mul]; omega
            _ ≤ img.height * img.width := Nat.mul_le_mul_right _ (by omega)
            _ = img.width * img.height := Nat.mul_comm _ _
        rw [hex, hey]
        simp only [List.getD_eq_getElem?_getD, List.getElem?_set_self hflt,
          Option.getD_some]
        have hyc : ((y : Int) - py).toNat = q := by omega
        have hxc : ((x : Int) - px).toNat = m := by omega
        have hk : ((y : Int) - py).toNat * cw + ((x : Int) - px).toNat = n := by
          rw [hyc, hxc, Nat.mul_comm q cw]
          exact hdm
        simp only [pasteSpec]
        rw [hk, if_pos ⟨by omega, by omega, by omega, by omega, hg5⟩,
          List.getD_eq_getElem?_getD]
      · have hne : (py + (q : Int)).toNat * img.width
            + (px + (m : Int)).toNat ≠ y * img.width + x := by
          intro hcon
          have ht1 : (px + (m : Int)).toNat < img.width := by omega
          have hu := flat_unique ht1 hx hcon
          exact heq ⟨hu.2, hu.1⟩
        simp only [List.getD_eq_getElem?_getD, List.getElem?_set_ne hne]
        have hip := ip x y hx hy
        rw [Img.pixelIndex, iw, List.getD_eq_getElem?_getD] at hip
        rw [hip]
        have hkne : ¬(px ≤ (x : Int) ∧ (x : Int) < px + (cw : Int) ∧
            py ≤ (y : Int) ∧
            ((y : Int) - py).toNat * cw + ((x : Int) - px).toNat = n ∧
            ((y : Int) - py).toNat * cw + ((x : Int) - px).toNat < clip.length) := by
          rintro ⟨ha, hb, hc, hd, -⟩
          have hxp : ((x : Int) - px).toNat < cw := by omega
          have h1 := (flat_divmod cw ((y : Int) - py).toNat ((x : Int) - px).toNat hxp).1
          have h2 := (flat_divmod cw ((y : Int) - py).toNat ((x : Int) - px).toNat hxp).2
          rw [hd, hq] at h1
          rw [hd, hm] at h2
          exact heq ⟨by rw [h2]; omega, by rw [h1]; omega⟩
        simp only [pasteSpec]
        by_cases hcv : px ≤ (x : Int) ∧ (x : Int) < px + (cw : Int) ∧
            py ≤ (y : Int) ∧
            ((y : Int) - py).toNat * cw + ((x : Int) - px).toNat < n ∧
            ((y : Int) - py).toNat * cw + ((x : Int) - px).toNat < clip.length
        · rw [if_pos hcv, if_pos ⟨hcv.1, hcv.2.1, hcv.2.2.1, by omega, hcv.2.2.2.2⟩]
        · rw [if_neg hcv, if_neg ?_]
          rintro ⟨ha, hb, hc, hd, he2⟩
          rcases Nat.lt_succ_iff_lt_or_eq.1 hd with hlt | heq2
          · exact hcv ⟨ha, hb, hc, hlt, he2⟩
          · exact hkne ⟨ha, hb, hc, heq2, by omega⟩
    · rw [if_neg hg]
      rw [ip x y hx hy]
      have hkne : ¬(px ≤ (x : Int) ∧ (x : Int) < px + (cw : Int) ∧
          py ≤ (y : Int) ∧
          ((y : Int) - py).toNat * cw + ((x : Int) - px).toNat = n ∧
          ((y : Int) - py).toNat * cw + ((x : Int) - px).toNat < clip.length) := by
        rintro ⟨ha, hb, hc, hd, he2⟩
        have hxp : ((x : Int) - px).toNat < cw := by omega
        have h1 := (flat_divmod cw ((y : Int) - py).toNat ((x : Int) - px).toNat hxp).1
        have h2 := (flat_divmod cw ((y : Int) - py).toNat ((x : Int) - px).toNat hxp).2
        rw [hd, hq] at h1
        rw [hd, hm] at h2
        refine hg ⟨by rw [h2]; omega, by rw [h2]; omega,
          by rw [h1]; omega, by rw [h1]; omega, by omega⟩
      simp only [pasteSpec]
      by_cases hcv : px ≤ (x : Int) ∧ (x : Int) < px + (cw : Int) ∧
          py ≤ (y : Int) ∧
          ((y : Int) - py).toNat * cw + ((x : Int) - px).toNat < n ∧
          ((y : Int) - py).toNat * cw + ((x : Int) - px).toNat < clip.length
      · rw [if_pos hcv, if_pos ⟨hcv.1, hcv.2.1, hcv.2.2.1, by omega, hcv.2.2.2.2⟩]
      · rw [if_neg hcv, if_neg ?_]
        rintro ⟨ha, hb, hc, hd, he2⟩
        rcases Nat.lt_succ_iff_lt_or_eq.1 hd with hlt | heq2
        · exact hcv ⟨ha, hb, hc, hlt, he2⟩
        · exact hkne ⟨ha, hb, hc, heq2, he2⟩

lemma paste_fold_char (clip : List Nat) (px py : Int) (cw ch : Nat) (img : Img)
    (hwf : img.WF) :
    ∀ n : Nat, n ≤ ch * cw →
      ((List.range n).foldl (pasteBody clip px py cw) img).width = img.width ∧
      ((List.range n).foldl (pasteBody clip px py cw) img).height = img.height ∧
      ((List.range n).foldl (pasteBody clip px py cw) img).data.length
        = img.data.length ∧
      (∀ x y : Nat, x < img.width → y < img.height →
        ((List.range n).foldl (pasteBody clip px py cw) img).pixelIndex x y
          = pasteSpec img clip px py cw n x y) := by
  intro n
  induction n with
  | zero =>
    intro _
    refine ⟨rfl, rfl, rfl, ?_⟩
    intro x y hx hy
    simp only [List.range_zero, List.foldl_nil, pasteSpec]
    rw [if_neg]
    rintro ⟨-, -, -, hd, -⟩
    exact absurd hd (Nat.not_lt_zero _)
  | succ n ih =>
    intro hn
    have hcw : 0 < cw := by
      rcases Nat.eq_zero_or_pos cw with h0 | h0
      · rw [h0, Nat.mul_zero] at hn; omega
      · exact h0
    obtain ⟨iw, ihh, il, ip⟩ := ih (by omega)
    rw [List.range_succ, List.foldl_append, List.foldl_cons, List.foldl_nil]
    exact paste_step_char clip px py cw _ img n hcw hwf iw ihh il ip

lemma pasteAt_char (img : Img) (clip : List Nat) (px py : Int) (cw ch : Nat)
    (hwf : img.WF) :
    (pasteAt img clip px py cw ch).width = img.width ∧
    (pasteAt img clip px py cw ch).height = img.height ∧
    (pasteAt img clip px py cw ch).data.length = img.data.length ∧
    (∀ x y : Nat, x < img.width → y < img.height →
      (pasteAt img clip px py cw ch).pixelIndex x y =
        if px ≤ (x : Int) ∧ (x : Int) < px + (cw : Int) ∧ py ≤ (y : Int) ∧
            (y : Int) < py + (ch : Int) ∧
            ((y : Int) - py).toNat * cw + ((x : Int) - px).toNat < clip.length then
          clip.getD (((y : Int) - py).toNat * cw + ((x : Int) - px).toNat) 0
        else img.pixelIndex x y) := by
  obtain ⟨hw, hh, hl, hp⟩ :=
    paste_fold_char clip px py cw ch img hwf (ch * cw) (Nat.le_refl _)
  rw [pasteAt_eq_fold]
  refine ⟨hw, hh, hl, ?_⟩
  intro x y hx hy
  rw [hp x y hx hy]
  simp only [pasteSpec]
  apply if_congr ?_ rfl rfl
  constructor
  · rintro ⟨ha, hb, hc, hd, he⟩
    refine ⟨ha, hb, hc, ?_, he⟩
    have hxp : ((x : Int) - px).toNat < cw := by omega
    have hyy : ((y : Int) - py).toNat < ch := by
      by_contra hno
      push_neg at hno
      have hmul : ch * cw ≤ ((y : Int) - py).toNat * cw :=
        Nat.mul_le_mul_right _ hno
      omega
    omega
  · rintro ⟨ha, hb, hc, hd, he⟩
    refine ⟨ha, hb, hc, ?_, he⟩
    have hxp : ((x : Int) - px).toNat < cw := by omega
    have hcw : 0 < cw := by omega
    have hyy : ((y : Int) - py).toNat < ch := by omega
    calc ((y : Int) - py).toNat * cw + ((x : Int) - px).toNat
        < ((y : Int) - py).toNat * cw + cw := by omega
      _ = (((y : Int) - py).toNat + 1) * cw := by rw [Nat.succ_mul]
      _ ≤ ch * cw := Nat.mul_le_mul_right _ (by omega)

lemma save_state_getLast (s : Canvas) (img : Img) (d : String)
    (hs : s.image = some img) :
    (save_state s d).undo_stack.getLast? = some (capSnap img d) := by
  simp only [save_state, hs]
  by_cases hc : (s.undo_stack ++ [capSnap img d]).length > maxHistory
  · rw [if_pos hc]
    have hne : s.undo_stack ≠ [] := by
      intro hh
      rw [hh] at hc
      simp [maxHistory] at hc
    rw [List.tail_append_of_ne_nil hne, List.getLast?_concat]
  · rw [if_neg hc, List.getLast?_concat]

/-- C7: `commit_paste` is a no-op returning failure when no paste session
is active; with an active session it returns success, leaves paste mode,
clears the overlay position, has pushed a snapshot of the pre-paste
buffer labelled "Paste" as the newest undo entry (so `save_state` ran
before any mutation) with the redo stack cleared, and the resulting
buffer holds the clipboard value at every cell covered by the overlay
rectangle that lies inside the buffer, every other cell being unchanged
(off-buffer destinations are skipped, not errors). -/
theorem c7_commit_paste :
    (∀ s : Canvas, s.paste_mode = false → commit_paste s = (s, false)) ∧
    (∀ (s : Canvas) (img : Img) (clip : List Nat) (cw ch : Nat) (px py : Int),
      s.paste_mode = true → s.image = some img → img.WF →
      s.clipboard_data = some clip → clip ≠ [] →
      s.clipboard_size = some (cw, ch) → s.paste_position = some (px, py) →
      (commit_paste s).2 = true ∧
      (commit_paste s).1.paste_mode = false ∧
      (commit_paste s).1.paste_position = none ∧
      (commit_paste s).1.redo_stack = [] ∧
      (commit_paste s).1.undo_stack.getLast? = some (capSnap img "Paste") ∧
      ∃ img2 : Img,
        (commit_paste s).1.image = some img2 ∧
        img2.width = img.width ∧ img2.height = img.height ∧
        ∀ x y : Nat, x < img.width → y < img.height →
          img2.pixelIndex x y =
            if px ≤ (x : Int) ∧ (x : Int) < px + (cw : Int) ∧ py ≤ (y : Int) ∧
                (y : Int) < py + (ch : Int) ∧
                ((y : Int) - py).toNat * cw + ((x : Int) - px).toNat
                  < clip.length then
              clip.getD (((y : Int) - py).toNat * cw + ((x : Int) - px).toNat) 0
            else img.pixelIndex x y) := by
  constructor
  · intro s h
    simp only [commit_paste]
    rw [if_pos (Or.inl h)]
  · intro s img clip cw ch px py hpm himg hwf hcd hclip hsz hpp
    have hcond : ¬(s.paste_mode = false ∨ optTruthy s.clipboard_data = false ∨
        s.paste_position = none) := by
      rintro (h | h | h)
      · rw [hpm] at h; cases h
      · rw [hcd] at h
        simp [optTruthy, hclip] at h
      · rw [hpp] at h; cases h
    have hmain : commit_paste s =
        ({ save_state s "Paste" with
            image := some (pasteAt img clip px py cw ch)
            paste_mode := false
            paste_position := none }, true) := by
      simp only [commit_paste]
      rw [if_neg hcond]
      simp only [himg, hcd, hpp, hsz]
    have hredo : (save_state s "Paste").redo_stack = [] := by
      simp only [save_state, himg]
    have hlast := save_state_getLast s img "Paste" himg
    obtain ⟨hw2, hh2, -, hp2⟩ := pasteAt_char img clip px py cw ch hwf
    rw [hmain]
    exact ⟨rfl, rfl, rfl, hredo, hlast,
      pasteAt img clip px py cw ch, rfl, hw2, hh2, hp2⟩

/-- A state with an active 1 x 1-clipboard paste session over a 2 x 2
buffer. -/
def pasteState : Canvas :=
  { initCanvas with
      image := some img2
      clipboard_data := some [5]
      clipboard_size := some (1, 1)
      paste_mode := true
      paste_position := some (0, 0) }

/-- C7 witness: the no-op half applied to the initial (session-free)
state, and the active half applied to a concrete session. -/
theorem c7_witness :
    commit_paste initCanvas = (initCanvas, false) ∧
    (commit_paste pasteState).2 = true ∧
    (commit_paste pasteState).1.paste_mode = false ∧
    (commit_paste pasteState).1.redo_stack = [] :=
  ⟨c7_commit_paste.1 initCanvas rfl,
   (c7_commit_paste.2 pasteState img2 [5] 1 1 0 0 rfl rfl rfl rfl
      (by decide) rfl rfl).1,
   (c7_commit_paste.2 pasteState img2 [5] 1 1 0 0 rfl rfl rfl rfl
      (by decide) rfl rfl).2.1,
   (c7_commit_paste.2 pasteState img2 [5] 1 1 0 0 rfl rfl rfl rfl
      (by decide) rfl rfl).2.2.2.1⟩

/-! ### C9: the undo/redo inverse law -/

lemma undoN_succ_outer : ∀ (n : Nat) (s : Canvas),
    undoN (n + 1) s = (undo (undoN n s)).1 := by
  intro n
  induction n with
  | zero => intro s; rfl
  | succ m ih =>
    intro s
    show undoN (m + 1) (undo s).1 = (undo (undoN (m + 1) s)).1
    rw [ih]
    rfl

lemma mutStep_eq (s : Canvas) (img : Img) (f : Img → Img) (d : String)
    (hs : s.image = some img) :
    mutStep s f d = { s with
      image := some (f img)
      undo_stack :=
        if (s.undo_stack ++ [capSnap img d]).length > maxHistory
        then (s.undo_stack ++ [capSnap img d]).tail
        else s.undo_stack ++ [capSnap img d]
      redo_stack := [] } := by
  simp only [mutStep, save_state, hs]
  rfl

lemma undo_restore (s : Canvas) (img imgPrev : Img) (d : String) (U : List Snap)
    (hs : s.image = some img) (hu : s.undo_stack = U ++ [capSnap imgPrev d])
    (hwfP : imgPrev.WF) (hwfC : img.WF)
    (hww : imgPrev.width = img.width) (hhh : imgPrev.height = img.height) :
    undo s = ({ s with
      image := some imgPrev
      undo_stack := U
      redo_stack := s.redo_stack ++ [capSnap img "Current"] }, true) := by
  simp only [undo, hs, hu, capSnap, List.getLast?_concat]
  rw [if_pos ⟨hww, hhh⟩]
  have hrw : writeRowMajor img.width img.height (captureData imgPrev) img.data
      = imgPrev.data := by
    rw [captureData_eq imgPrev hwfP]
    apply writeRowMajor_eq
    · exact hwfC
    · rw [hwfP, hww, hhh]
  rw [hrw, List.dropLast_concat]
  have hieq : (Img.mk img.width img.height imgPrev.data) = imgPrev := by
    obtain ⟨pw, ph, pd⟩ := imgPrev
    simp only at hww hhh ⊢
    rw [hww, hhh]
  rw [hieq]

lemma redo_restore (s : Canvas) (img imgNext : Img) (d : String) (R2 : List Snap)
    (hs : s.image = some img) (hr : s.redo_stack = R2 ++ [capSnap imgNext d])
    (hwfN : imgNext.WF) (hwfC : img.WF)
    (hww : imgNext.width = img.width) (hhh : imgNext.height = img.height) :
    redo s = ({ s with
      image := some imgNext
      redo_stack := R2
      undo_stack := s.undo_stack ++ [capSnap img "Current"] }, true) := by
  simp only [redo, hs, hr, capSnap, List.getLast?_concat]
  rw [if_pos ⟨hww, hhh⟩]
  have hrw : writeRowMajor img.width img.height (captureData imgNext) img.data
      = imgNext.data := by
    rw [captureData_eq imgNext hwfN]
    apply writeRowMajor_eq
    · exact hwfC
    · rw [hwfN, hww, hhh]
  rw [hrw, List.dropLast_concat]
  have hieq : (Img.mk img.width img.height imgNext.data) = imgNext := by
    obtain ⟨pw, ph, pd⟩ := imgNext
    simp only at hww hhh ⊢
    rw [hww, hhh]
  rw [hieq]

lemma dimPreserving_wf (f : Img → Img) (img : Img) (hp : DimPreserving f)
    (hwf : img.WF) : (f img).WF := by
  have h1 := hp img
  unfold Img.WF
  rw [h1.1, h1.2.1, h1.2.2]
  exact hwf

lemma ascImgs_props : ∀ (fs : List ((Img → Img) × String)) (img0 : Img),
    img0.WF → (∀ p ∈ fs, DimPreserving p.1) →
    ∀ i ∈ ascImgs fs img0,
      i.WF ∧ i.width = img0.width ∧ i.height = img0.height := by
  intro fs
  induction fs with
  | nil => intro img0 _ _ i hi; cases hi
  | cons p fs ih =>
    intro img0 hwf hpres i hi
    have hp := hpres p (List.mem_cons_self p fs)
    have hwf1 : (p.1 img0).WF := dimPreserving_wf p.1 img0 hp hwf
    rw [ascImgs, List.mem_cons] at hi
    rcases hi with hi | hi
    · subst hi
      exact ⟨hwf1, (hp img0).1, (hp img0).2.1⟩
    · have hrec := ih (p.1 img0) hwf1
        (fun q hq => hpres q (List.mem_cons_of_mem p hq)) i hi
      exact ⟨hrec.1, hrec.2.1.trans (hp img0).1, hrec.2.2.trans (hp img0).2.1⟩

lemma ascImgs_length : ∀ (fs : List ((Img → Img) × String)) (img0 : Img),
    (ascImgs fs img0).length = fs.length := by
  intro fs
  induction fs with
  | nil => intro img0; rfl
  | cons p fs ih =>
    intro img0
    rw [ascImgs, List.length_cons, List.length_cons, ih]

lemma ascImgs_ne_nil (fs : List ((Img → Img) × String)) (img0 : Img)
    (h : fs ≠ []) : ascImgs fs img0 ≠ [] := by
  intro hc
  apply h
  have := ascImgs_length fs img0
  rw [hc] at this
  exact List.length_eq_zero.1 this.symm

lemma ascImgs_getLastD : ∀ (fs : List ((Img → Img) × String)) (img0 : Img),
    (ascImgs fs img0).getLastD img0 = applyAll fs img0 := by
  intro fs
  induction fs with
  | nil => intro img0; rfl
  | cons p fs ih =>
    intro img0
    rw [ascImgs, List.getLastD_cons, ih]
    rfl

lemma evictPush_shape (U : List Snap) (c : Snap) (hU : U.length ≤ maxHistory) :
    ∃ k0 : Nat, k0 ≤ U.length + 1 - maxHistory ∧
      (if (U ++ [c]).length > maxHistory then (U ++ [c]).tail else U ++ [c])
        = U.drop k0 ++ [c] ∧
      (U.drop k0).length + 1 ≤ maxHistory := by
  by_cases hc : (U ++ [c]).length > maxHistory
  · refine ⟨1, ?_, ?_, ?_⟩
    · simp only [List.length_append, List.length_cons, List.length_nil] at hc
      simp only [maxHistory] at hc hU ⊢
      omega
    · rw [if_pos hc]
      have hne : U ≠ [] := by
        intro hh
        rw [hh] at hc
        simp [maxHistory] at hc
      rw [List.tail_append_of_ne_nil hne, ← List.drop_one]
    · simp only [List.length_drop]
      simp only [List.length_append, List.length_cons, List.length_nil] at hc
      simp only [maxHistory] at hc hU ⊢
      omega
  · refine ⟨0, Nat.zero_le _, ?_, ?_⟩
    · rw [if_neg hc, List.drop_zero]
    · simp only [List.length_append, List.length_cons, List.length_nil] at hc
      simp only [List.drop_zero]
      simp only [maxHistory] at hc hU ⊢
      omega

lemma muts_undo : ∀ (fs : List ((Img → Img) × String)) (s : Canvas) (img0 : Img),
    fs ≠ [] → s.image = some img0 → img0.WF →
    (∀ p ∈ fs, DimPreserving p.1) →
    fs.length ≤ maxHistory → s.undo_stack.length ≤ maxHistory →
    ∃ k : Nat, k ≤ s.undo_stack.length + fs.length - maxHistory ∧
      undoN fs.length (applyMuts fs s) =
        { s with
          undo_stack := s.undo_stack.drop k
          redo_stack := (ascImgs fs img0).reverse.map fun i => capSnap i "Current" } := by
  intro fs
  induction fs with
  | nil => intro s img0 hne; exact absurd rfl hne
  | cons p fs ih =>
    intro s img0 _ hs hwf hpres hn hu
    have hp : DimPreserving p.1 := hpres p (List.mem_cons_self p fs)
    have hwf1 : (p.1 img0).WF := dimPreserving_wf p.1 img0 hp hwf
    obtain ⟨k0, hk0b, hevict, hlen1⟩ := evictPush_shape s.undo_stack (capSnap img0 p.2) hu
    have hs1 := mutStep_eq s img0 p.1 p.2 hs
    rw [hevict] at hs1
    by_cases hfs : fs = []
    · subst hfs
      refine ⟨k0, hk0b, ?_⟩
      show (undo (applyMuts [p] s)).1 = _
      rw [show applyMuts [p] s = mutStep s p.1 p.2 from rfl, hs1]
      rw [undo_restore _ (p.1 img0) img0 p.2 (s.undo_stack.drop k0) rfl rfl hwf hwf1
        ((hp img0).1.symm) ((hp img0).2.1.symm)]
      rw [hs]
      rfl
    · have hs1img : (mutStep s p.1 p.2).image = some (p.1 img0) := by rw [hs1]
      have hs1len : (mutStep s p.1 p.2).undo_stack.length ≤ maxHistory := by
        rw [hs1]
        simpa using hlen1
      have hfsn : fs.length + 1 ≤ maxHistory := by simpa using hn
      obtain ⟨k', hk'b, heq'⟩ := ih (mutStep s p.1 p.2) (p.1 img0) hfs hs1img hwf1
        (fun q hq => hpres q (List.mem_cons_of_mem p hq)) (Nat.le_of_succ_le hfsn) hs1len
      have hdropk : (s.undo_stack.drop k0).length = s.undo_stack.length - k0 :=
        List.length_drop _ _
      have hk'b2 : k' ≤ (s.undo_stack.drop k0).length + 1 + fs.length - maxHistory := by
        rw [hs1] at hk'b
        simpa using hk'b
      simp only [maxHistory] at hk0b hk'b2 hfsn
      have hk'small : k' ≤ (s.undo_stack.drop k0).length := by omega
      have hcomb : (s.undo_stack.drop k0 ++ [capSnap img0 p.2]).drop k'
          = s.undo_stack.drop (k0 + k') ++ [capSnap img0 p.2] := by
        rw [List.drop_append_of_le_length hk'small, List.drop_drop]
      have heq2 : undoN fs.length (applyMuts fs (mutStep s p.1 p.2))
          = { s with
              image := some (p.1 img0)
              undo_stack := s.undo_stack.drop (k0 + k') ++ [capSnap img0 p.2]
              redo_stack := (ascImgs fs (p.1 img0)).reverse.map
                fun i => capSnap i "Current" } := by
        rw [heq', hs1]
        simp only []
        rw [hcomb]
      have htr : (ascImgs (p :: fs) img0).reverse.map (fun i => capSnap i "Current")
          = ((ascImgs fs (p.1 img0)).reverse.map fun i => capSnap i "Current")
            ++ [capSnap (p.1 img0) "Current"] := by
        rw [ascImgs, List.reverse_cons, List.map_append]
        rfl
      refine ⟨k0 + k', by simp only [List.length_cons, maxHistory]; omega, ?_⟩
      have hstep : undoN (p :: fs).length (applyMuts (p :: fs) s)
          = (undo (undoN fs.length (applyMuts fs (mutStep s p.1 p.2)))).1 := by
        show undoN (fs.length + 1) (applyMuts (p :: fs) s) = _
        rw [undoN_succ_outer]
        rfl
      rw [hstep, heq2]
      rw [undo_restore _ (p.1 img0) img0 p.2 (s.undo_stack.drop (k0 + k')) rfl rfl
        hwf hwf1 ((hp img0).1.symm) ((hp img0).2.1.symm), htr, hs]

lemma redo_phase : ∀ (nexts : List Img) (t : Canvas) (cur : Img) (R : List Snap),
    nexts ≠ [] →
    t.image = some cur → cur.WF →
    (∀ i ∈ nexts, i.WF ∧ i.width = cur.width ∧ i.height = cur.height) →
    t.redo_stack = R ++ (nexts.reverse.map fun i => capSnap i "Current") →
    redoN nexts.length t =
      { t with
        image := some (nexts.getLastD cur)
        redo_stack := R
        undo_stack := t.undo_stack
          ++ ((cur :: nexts.dropLast).map fun i => capSnap i "Current") } := by
  intro nexts
  induction nexts with
  | nil => intro t cur R hne; exact absurd rfl hne
  | cons i1 nexts ih =>
    intro t cur R _ ht hwf hdims hr
    have hd1 := hdims i1 (List.mem_cons_self i1 nexts)
    have hr2 : t.redo_stack
        = (R ++ (nexts.reverse.map fun i => capSnap i "Current"))
          ++ [capSnap i1 "Current"] := by
      rw [hr, List.reverse_cons, List.map_append, List.append_assoc]
      rfl
    have hredo1 := redo_restore t cur i1 "Current"
      (R ++ (nexts.reverse.map fun i => capSnap i "Current")) ht hr2
      hd1.1 hwf hd1.2.1 hd1.2.2
    by_cases hn : nexts = []
    · subst hn
      show redoN 0 (redo t).1 = _
      rw [hredo1]
      simp [redoN, List.getLastD_cons]
    · show redoN nexts.length (redo t).1 = _
      rw [hredo1]
      have hmain := ih ({ t with
          image := some i1
          redo_stack := R ++ (nexts.reverse.map fun i => capSnap i "Current")
          undo_stack := t.undo_stack ++ [capSnap cur "Current"] }) i1 R hn rfl hd1.1
        (fun j hj => by
          have hdj := hdims j (List.mem_cons_of_mem i1 hj)
          exact ⟨hdj.1, hdj.2.1.trans hd1.2.1.symm, hdj.2.2.trans hd1.2.2.symm⟩)
        rfl
      rw [hmain]
      rw [List.getLastD_cons, List.dropLast_cons_of_ne_nil hn]
      rw [List.append_assoc]
      rfl

/-- C9: starting from any loaded well-formed buffer and any prior
history of at most `max_history` entries, after n size-preserving
mutations each immediately preceded by `save_state` (n at most
`max_history`), n `undo` calls restore the pixel buffer to its
pre-sequence contents, and n further `redo` calls then restore the
post-sequence contents. -/
theorem c9_undo_redo_inverse :
    ∀ (fs : List ((Img → Img) × String)) (s : Canvas) (img0 : Img),
      s.image = some img0 → img0.WF →
      (∀ p ∈ fs, DimPreserving p.1) →
      fs.length ≤ maxHistory → s.undo_stack.length ≤ maxHistory →
      (undoN fs.length (applyMuts fs s)).image = some img0 ∧
      (redoN fs.length (undoN fs.length (applyMuts fs s))).image
        = some (applyAll fs img0) := by
  intro fs s img0 hs hwf hpres hn hu
  by_cases hfs : fs = []
  · subst hfs
    exact ⟨hs, hs⟩
  · obtain ⟨k, hk, heq⟩ := muts_undo fs s img0 hfs hs hwf hpres hn hu
    constructor
    · rw [heq]
      exact hs
    · rw [heq]
      have hprops := ascImgs_props fs img0 hwf hpres
      have hne := ascImgs_ne_nil fs img0 hfs
      have hmain := redo_phase (ascImgs fs img0)
        ({ s with
            undo_stack := s.undo_stack.drop k
            redo_stack := (ascImgs fs img0).reverse.map fun i => capSnap i "Current" })
        img0 [] hne hs hwf
        (fun i hi => hprops i hi)
        (by rw [List.nil_append])
      rw [ascImgs_length] at hmain
      rw [hmain, ascImgs_getLastD]

/-- A single size-preserving mutation used by the C9 witness. -/
def mutW : (Img → Img) × String := (fun i => Img.setPixel i 0 0 1, "Draw")

/-- C9 witness: the inverse law applied to a concrete 2 x 2 buffer and a
single draw mutation. -/
theorem c9_witness :
    (undoN 1 (applyMuts [mutW] loaded2)).image = some img2 ∧
    (redoN 1 (undoN 1 (applyMuts [mutW] loaded2))).image
      = some (applyAll [mutW] img2) :=
  c9_undo_redo_inverse [mutW] loaded2 img2 rfl rfl
    (by
      intro p hp
      simp only [List.mem_singleton] at hp
      subst hp
      intro i
      exact ⟨rfl, rfl, by simp [mutW, Img.setPixel]⟩)
    (by simp [maxHistory]) (by simp [maxHistory, loaded2, initCanvas])
